import Mathlib

/-!
Verification development for the ConversationGuard JNI bridge
(`app/src/main/cpp/whisper_jni.cpp`).

The bridge exposes three entry points to the managed runtime:

* `Java_ai_guard_native_WhisperBridge_nativeInit` (here `nativeInit`)
* `Java_ai_guard_native_WhisperBridge_nativeRelease` (here `nativeRelease`)
* `Java_ai_guard_native_WhisperBridge_nativeProcess` (here `nativeProcess`)

The external whisper engine is opaque to the bridge, so it enters the
embedding as explicit data: the model loader is a function
`String → Option Nat` (a `Nat` stands for a non-null `whisper_context*`
handle) and one transcription run is an `EngineResult` value recording
the return code of `whisper_full` and the per-segment texts reported by
`whisper_full_get_segment_text` (a `none` text models a null `char*`).

JNI specifics are embedded explicitly as well: a nullable `jstring` or
`jshortArray` is an `Option`, `GetShortArrayElements` may fail (the
`pinOk` flag), and `ReleaseShortArrayElements` takes a release mode
whose `JNI_ABORT` branch discards the working copy.  PCM floats are
modelled as `Rat`: every value produced by the conversion is
`s / 32768` with `|s| ≤ 32768`, which is exactly representable in
IEEE single precision, so rational arithmetic is exact for it.
-/

namespace ConversationGuard

/-- Engine context handle: a `Nat` stands for a non-null
`whisper_context*` pointer value. -/
abbrev Ctx := Nat

/-- `choose_num_threads` from `whisper_jni.cpp`:
reads `std::thread::hardware_concurrency()` (argument `hw`, the value
of an `unsigned int`, hence `< 2^32`), replaces an unreported count
(`0`) by `2`, converts it with `static_cast<int>(hw)` — a wrapping
unsigned-to-signed conversion, so values in `[2^31, 2^32)` come out
negative — and clamps the resulting `int` to at least `2` and at most
`4`. -/
def choose_num_threads (hw : Nat) : Int :=
  let hw2 : Nat := if hw = 0 then 2 else hw
  -- static_cast<int>(hw): two's-complement wrap of the unsigned value
  let t : Int :=
    if hw2 % 2 ^ 32 < 2 ^ 31 then ((hw2 % 2 ^ 32 : Nat) : Int)
    else ((hw2 % 2 ^ 32 : Nat) : Int) - 2 ^ 32
  let t := if t < 2 then 2 else t
  let t := if t > 4 then 4 else t
  t

/-- The subset of `whisper_full_params` fields that
`nativeProcess` assigns before calling `whisper_full`. -/
structure FullParams where
  print_realtime : Bool
  print_progress : Bool
  print_timestamps : Bool
  print_special : Bool
  translate : Bool
  no_context : Bool
  single_segment : Bool
  n_threads : Int
  offset_ms : Int
  duration_ms : Int
  deriving Repr, DecidableEq

/-- The parameter block `nativeProcess` builds: greedy-sampling defaults
with every field below overwritten exactly as in the source. -/
def wparamsFor (hw : Nat) : FullParams :=
  { print_realtime := false
    print_progress := false
    print_timestamps := false
    print_special := false
    translate := false
    no_context := true
    single_segment := false
    n_threads := choose_num_threads hw
    offset_ms := 0
    duration_ms := 0 }

/-- `nativeInit`: embedding of
`Java_ai_guard_native_WhisperBridge_nativeInit`.

Inputs: the engine loader (`whisper_init_from_file`), the current global
context `g_ctx`, and the nullable `jstring` model path.  Output: the
`jboolean` result paired with the new value of `g_ctx`.

The body mirrors the source order: free any previous context first,
then check for a null path, then for an empty path, then attempt the
engine load. -/
def nativeInit (load : String → Option Ctx) (g_ctx : Option Ctx)
    (jModelPath : Option String) : Bool × Option Ctx :=
  -- "If already initialized, free and re-init": g_ctx := nullptr
  let _ := g_ctx
  let g_ctx : Option Ctx := none
  match jModelPath with
  | none => (false, g_ctx)          -- "nativeInit: null model path"
  | some modelPath =>
    if modelPath = "" then
      (false, g_ctx)                -- "nativeInit: empty model path"
    else
      match load modelPath with
      | none => (false, none)       -- "whisper_init_from_file() failed"
      | some c => (true, some c)

/-- `nativeRelease`: frees the context when one exists and clears the
stored handle; a no-op when none exists. -/
def nativeRelease (g_ctx : Option Ctx) : Option Ctx :=
  match g_ctx with
  | some _ => none
  | none => none

/-- Result of one `whisper_full` run: the return code and, for each
segment index `i < whisper_full_n_segments`, the `char*` returned by
`whisper_full_get_segment_text` (`none` for a null pointer). -/
structure EngineResult where
  ret : Int
  segments : List (Option String)
  deriving Repr

/-- The segment-collection loop of `nativeProcess`, started at index
`i`:

`for i: text := segment[i]; if (text && text[0] != 0) { if (i > 0) oss << ' '; oss << text; }` -/
def collectSegs : Nat → List (Option String) → String
  | _, [] => ""
  | i, t :: rest =>
    (match t with
     | some s => if s = "" then "" else (if i > 0 then " " ++ s else s)
     | none => "") ++ collectSegs (i + 1) rest

/-- The per-sample conversion of `nativeProcess`:
`pcm[i] = buf[i] / 32768.0f`.  Modelled over `Rat`: for every 16-bit
sample `s` the value `s / 32768` has the form `m / 2^24` with
`|m| ≤ 2^24`, hence is exactly representable in IEEE single precision
and rational arithmetic coincides with the float computation. -/
def pcmToFloat (s : Int) : Rat := (s : Rat) / 32768

/-- JNI release modes for `ReleaseShortArrayElements`; the source passes
`JNI_ABORT`. -/
inductive ReleaseMode where
  | commit
  | jniAbort
  deriving Repr, DecidableEq

/-- `ReleaseShortArrayElements` semantics on the caller's array: mode
`0` (commit) copies the working buffer back, `JNI_ABORT` frees it
without copying back, leaving the caller's array as it was. -/
def releaseShortArrayElements (orig buf : List Int) (mode : ReleaseMode) :
    List Int :=
  match mode with
  | .commit => buf
  | .jniAbort => orig

/-- Everything observable about one `nativeProcess` call:
the returned `jstring` (`none` would be a null reference — the source
always returns `NewStringUTF`, hence always `some`), whether
`whisper_full` was invoked, and if so with which float buffer and
parameter block, and the caller's array contents after the call. -/
structure ProcOut where
  result : Option String
  engineCalled : Bool
  enginePcm : Option (List Rat)
  engineParams : Option FullParams
  finalArr : Option (List Int)
  deriving Repr

/-- `nativeProcess`: embedding of
`Java_ai_guard_native_WhisperBridge_nativeProcess`.

Inputs: the global context, the nullable `jshortArray` (as the list of
its 16-bit samples, each an `Int`), the `jint` length, whether
`GetShortArrayElements` succeeds (`pinOk`), the reported hardware
concurrency, and the engine's behaviour on this run (`er`).

Mirrors the source: null-context check, null-array / non-positive
length check, pin, float conversion `buf[i] / 32768.0f`, release with
`JNI_ABORT`, parameter setup, `whisper_full`, and the segment join. -/
def nativeProcess (g_ctx : Option Ctx) (jPcm : Option (List Int))
    (length : Int) (pinOk : Bool) (hw : Nat) (er : EngineResult) :
    ProcOut :=
  match g_ctx with
  | none =>
    -- "g_ctx is null – model not initialized"
    ⟨some "", false, none, none, jPcm⟩
  | some _ =>
    match jPcm with
    | none => ⟨some "", false, none, none, jPcm⟩
    | some a =>
      if length ≤ 0 then
        -- "invalid PCM array or length"
        ⟨some "", false, none, none, jPcm⟩
      else if !pinOk then
        -- "GetShortArrayElements returned null"
        ⟨some "", false, none, none, jPcm⟩
      else
        let n_samples : Nat := length.toNat
        let buf : List Int := a
        let pcm : List Rat := (buf.take n_samples).map pcmToFloat
        let a2 : List Int := releaseShortArrayElements a buf .jniAbort
        let wparams : FullParams := wparamsFor hw
        if er.ret ≠ 0 then
          -- "whisper_full() failed"
          ⟨some "", true, some pcm, some wparams, some a2⟩
        else
          let result : String := collectSegs 0 er.segments
          ⟨some result, true, some pcm, some wparams, some a2⟩

/-- The segment texts the collection loop keeps: non-null and
non-empty ones, in order. -/
def keptTexts (segs : List (Option String)) : List String :=
  segs.filterMap (fun t =>
    match t with
    | some s => if s = "" then none else some s
    | none => none)

/-- Whether the first engine-reported segment text is kept (non-null
and non-empty); exactly when it is, the collection loop emits no
leading separator. -/
def headKept : List (Option String) → Bool
  | some s :: _ => s != ""
  | _ => false

/-- Modelled from the spec: "joining per-segment text chunks with a
single space separator" — texts joined with exactly one space between
consecutive ones and no leading or trailing separator.  Stated over
the kept (non-null, non-empty) texts; to be compared with
`collectSegs`, the join the source actually performs. -/
def specJoin : List String → String
  | [] => ""
  | [s] => s
  | s :: rest => s ++ " " ++ specJoin rest

/-- Helper: the string the collection loop appends for a suffix of
segments all of whose indices are positive — each kept text prefixed
by one space. -/
def tailJoin (l : List String) : String :=
  l.foldr (fun s acc => " " ++ s ++ acc) ""

/-! ### Concurrency model

Each of the three entry points begins with
`std::lock_guard<std::mutex> lock(g_mutex)` on the single global
`g_mutex` and holds it until the function returns, so an operation
body is one critical section of one process-wide mutex.  The model is
a transition system: a thread enters an operation body only by
acquiring the free mutex and leaves it only by releasing it. -/

/-- The three bridge operations. -/
inductive BridgeOp where
  | init
  | process
  | releaseOp
  deriving Repr, DecidableEq

/-- What a caller thread is doing: idle, or inside the body of one of
the three operations (hence holding `g_mutex`). -/
inductive Phase where
  | idle
  | inBody (op : BridgeOp)
  deriving Repr, DecidableEq

/-- Global state of the bridge's locking discipline: who holds
`g_mutex`, and each thread's phase. -/
structure Sys where
  lockOwner : Option Nat
  phase : Nat → Phase

/-- Initial state: mutex free, every thread idle. -/
def Sys.start : Sys := ⟨none, fun _ => .idle⟩

/-- One step of the bridge: entering an operation body requires
acquiring the free `g_mutex` (the `lock_guard` is the first statement
of every entry point), and leaving the body releases it (the
`lock_guard` is destroyed at function exit). -/
inductive Step : Sys → Sys → Prop where
  | enter (s : Sys) (t : Nat) (op : BridgeOp) :
      s.lockOwner = none → s.phase t = .idle →
      Step s ⟨some t, Function.update s.phase t (.inBody op)⟩
  | leave (s : Sys) (t : Nat) (op : BridgeOp) :
      s.lockOwner = some t → s.phase t = .inBody op →
      Step s ⟨none, Function.update s.phase t .idle⟩

/-- Reachable states of the locking discipline. -/
inductive Reach : Sys → Prop where
  | start : Reach Sys.start
  | step {s s' : Sys} : Reach s → Step s s' → Reach s'

/-- The inductive invariant: any thread inside an operation body holds
the mutex. -/
def LockInv (s : Sys) : Prop :=
  ∀ t, s.phase t ≠ .idle → s.lockOwner = some t

/-! ### Helper lemmas about the segment join -/

theorem collectSegs_pos (l : List (Option String)) :
    ∀ i : Nat, 0 < i → collectSegs i l = tailJoin (keptTexts l) := by
  induction l with
  | nil => intro i hi; rfl
  | cons t rest ih =>
    intro i hi
    cases t with
    | none =>
      simp [collectSegs, keptTexts, ih (i + 1) (by omega)]
    | some s =>
      by_cases hs : s = ""
      · simp [collectSegs, hs, keptTexts, ih (i + 1) (by omega)]
      · simp [collectSegs, hs, hi, keptTexts, tailJoin, ih (i + 1) (by omega)]

theorem specJoin_cons (s : String) (l : List String) :
    specJoin (s :: l) = s ++ tailJoin l := by
  induction l generalizing s with
  | nil => simp [specJoin, tailJoin]
  | cons a l ih =>
    show specJoin (s :: a :: l) = s ++ tailJoin (a :: l)
    have h1 : specJoin (s :: a :: l) = s ++ " " ++ specJoin (a :: l) := rfl
    rw [h1, ih]
    show s ++ " " ++ (a ++ tailJoin l) = s ++ (" " ++ a ++ tailJoin l)
    rw [String.append_assoc, String.append_assoc]

theorem tailJoin_eq (l : List String) :
    tailJoin l = (if l = [] then "" else " ") ++ specJoin l := by
  cases l with
  | nil => rfl
  | cons s l =>
    rw [if_neg (List.cons_ne_nil s l), specJoin_cons]
    show " " ++ s ++ tailJoin l = " " ++ (s ++ tailJoin l)
    rw [String.append_assoc]

theorem collectSegs_zero (segs : List (Option String)) :
    collectSegs 0 segs =
      (if !(keptTexts segs).isEmpty && !headKept segs then " " else "")
        ++ specJoin (keptTexts segs) := by
  cases segs with
  | nil => rfl
  | cons t rest =>
    cases t with
    | none =>
      show "" ++ collectSegs 1 rest = _
      rw [String.empty_append, collectSegs_pos rest 1 (by omega), tailJoin_eq]
      have hk : keptTexts (none :: rest) = keptTexts rest := by
        simp [keptTexts]
      have hh : headKept (none :: rest) = false := rfl
      rw [hk, hh]
      cases h : keptTexts rest with
      | nil => simp
      | cons a l => simp
    | some s =>
      by_cases hs : s = ""
      · subst hs
        show "" ++ collectSegs 1 rest = _
        rw [String.empty_append, collectSegs_pos rest 1 (by omega), tailJoin_eq]
        have hk : keptTexts (some "" :: rest) = keptTexts rest := by
          simp [keptTexts]
        have hh : headKept (some "" :: rest) = false := rfl
        rw [hk, hh]
        cases h : keptTexts rest with
        | nil => simp
        | cons a l => simp
      · show (if s = "" then "" else if (0 : Nat) > 0 then " " ++ s else s)
            ++ collectSegs 1 rest = _
        rw [if_neg hs, if_neg (by omega), collectSegs_pos rest 1 (by omega)]
        have hk : keptTexts (some s :: rest) = s :: keptTexts rest := by
          simp [keptTexts, hs]
        have hh : headKept (some s :: rest) = true := by
          simp [headKept, hs]
        rw [hk, hh, specJoin_cons]
        simp

theorem mem_keptTexts_ne (segs : List (Option String)) (s : String)
    (h : s ∈ keptTexts segs) : s ≠ "" := by
  rw [keptTexts, List.mem_filterMap] at h
  obtain ⟨t, _, ht⟩ := h
  cases t with
  | none => simp at ht
  | some u =>
    by_cases hu : u = "" <;> simp [hu] at ht
    subst ht; exact hu

theorem append_ne_empty_right (x y : String) (hy : y ≠ "") : x ++ y ≠ "" := by
  intro h
  apply hy
  have hdata : (x ++ y).data = [] := by rw [h]
  rw [String.data_append, List.append_eq_nil] at hdata
  exact String.ext hdata.2

theorem specJoin_ne_empty (l : List String) (hne : l ≠ [])
    (h : ∀ s ∈ l, s ≠ "") : specJoin l ≠ "" := by
  cases l with
  | nil => exact absurd rfl hne
  | cons s l =>
    rw [specJoin_cons]
    intro hcontra
    apply h s (List.mem_cons_self s l)
    have hdata : (s ++ tailJoin l).data = [] := by rw [hcontra]
    rw [String.data_append, List.append_eq_nil] at hdata
    exact String.ext hdata.1

/-! ### Helper lemmas about the locking discipline -/

theorem lockInv_start : LockInv Sys.start := by
  intro t h
  exact absurd rfl h

theorem lockInv_step {s s' : Sys} (h : LockInv s) (hs : Step s s') :
    LockInv s' := by
  cases hs with
  | enter t op hfree hidle =>
    intro u hu
    by_cases hut : u = t
    · subst hut; rfl
    · exfalso
      simp only [Function.update, hut] at hu
      simp [hut] at hu
      exact Option.noConfusion (hfree ▸ h u hu)
  | leave t op hown hbody =>
    intro u hu
    exfalso
    by_cases hut : u = t
    · subst hut
      simp [Function.update] at hu
    · simp [Function.update, hut] at hu
      have hu2 := h u hu
      rw [hown] at hu2
      exact hut (Option.some.inj hu2.symm)

theorem lockInv_reach {s : Sys} (h : Reach s) : LockInv s := by
  induction h with
  | start => exact lockInv_start
  | step _ hs ih => exact lockInv_step ih hs

/-! ### Helper lemma: the valid-input run of `nativeProcess` -/

theorem nativeProcess_run (c : Ctx) (a : List Int) (len : Int) (hw : Nat)
    (er : EngineResult) (h1 : 0 < len) :
    nativeProcess (some c) (some a) len true hw er =
      if er.ret = 0 then
        ⟨some (collectSegs 0 er.segments), true,
          some ((a.take len.toNat).map pcmToFloat), some (wparamsFor hw),
          some a⟩
      else
        ⟨some "", true, some ((a.take len.toNat).map pcmToFloat),
          some (wparamsFor hw), some a⟩ := by
  have hlen : ¬len ≤ 0 := by omega
  by_cases hr : er.ret = 0 <;>
    simp [nativeProcess, releaseShortArrayElements, hr, hlen]

/-! ### Claim theorems -/

/-- C2: `initialize` returns true exactly when the model path is
non-null, non-empty, and the engine's load-from-file routine returns a
handle (which is then the installed context); on any failure it
returns false and leaves no context installed, so the state after a
failed `initialize` is Uninitialized. -/
theorem nativeInit_success_iff (load : String → Option Ctx)
    (st : Option Ctx) (path : Option String) :
    ((nativeInit load st path).1 = true ↔
      ∃ p, path = some p ∧ p ≠ "" ∧
        ∃ c, load p = some c ∧ (nativeInit load st path).2 = some c)
    ∧ ((nativeInit load st path).1 = false →
        (nativeInit load st path).2 = none) := by
  cases path with
  | none => simp [nativeInit]
  | some p =>
    by_cases hp : p = ""
    · simp [nativeInit, hp]
    · cases hc : load p with
      | none => simp [nativeInit, hp, hc]
      | some c => simp [nativeInit, hp, hc]

/-- Witness for C2: with a loader that returns handle `7`, a non-empty
path initializes successfully. -/
theorem nativeInit_success_iff_witness :
    (nativeInit (fun _ => some 7) none (some "model.bin")).1 = true :=
  ((nativeInit_success_iff (fun _ => some 7) none (some "model.bin")).1).2
    ⟨"model.bin", rfl, by decide, 7, rfl, rfl⟩

/-- C3: when no context is installed, or the sample array is null, or
the length is non-positive, `process` returns the empty string and the
engine's transcription routine is never invoked. -/
theorem nativeProcess_guard (g_ctx : Option Ctx) (jPcm : Option (List Int))
    (len : Int) (pinOk : Bool) (hw : Nat) (er : EngineResult)
    (h : g_ctx = none ∨ jPcm = none ∨ len ≤ 0) :
    (nativeProcess g_ctx jPcm len pinOk hw er).result = some ""
    ∧ (nativeProcess g_ctx jPcm len pinOk hw er).engineCalled = false := by
  rcases h with h | h | h
  · subst h; simp [nativeProcess]
  · subst h; cases g_ctx <;> simp [nativeProcess]
  · cases g_ctx with
    | none => simp [nativeProcess]
    | some c =>
      cases jPcm with
      | none => simp [nativeProcess]
      | some a => simp [nativeProcess, h]

/-- Witness for C3: calling `process` before any `initialize` returns
the empty string without invoking the engine. -/
theorem nativeProcess_guard_witness :
    (nativeProcess none (some [1, 2]) 2 true 4 ⟨0, [some "hi"]⟩).result
        = some ""
    ∧ (nativeProcess none (some [1, 2]) 2 true 4
        ⟨0, [some "hi"]⟩).engineCalled = false :=
  nativeProcess_guard none (some [1, 2]) 2 true 4 ⟨0, [some "hi"]⟩
    (Or.inl rfl)

/-- C6: every `initialize` call destroys the previously installed
context before doing anything else — its outcome is independent of the
prior state — and any failed `initialize` (null path, empty path, or
engine load failure) leaves the state Uninitialized, even when a
context was installed before the call. -/
theorem nativeInit_frees_previous (load : String → Option Ctx)
    (st : Option Ctx) (path : Option String) :
    nativeInit load st path = nativeInit load none path
    ∧ ((nativeInit load st path).1 = false →
        (nativeInit load st path).2 = none) := by
  refine ⟨rfl, ?_⟩
  cases path with
  | none => simp [nativeInit]
  | some p =>
    by_cases hp : p = ""
    · simp [nativeInit, hp]
    · cases hc : load p with
      | none => simp [nativeInit, hp, hc]
      | some c => simp [nativeInit, hp, hc]

/-- Witness for C6: a re-`initialize` with a null path on an installed
context (handle `3`) fails and uninstalls the context. -/
theorem nativeInit_frees_previous_witness :
    (nativeInit (fun _ => some 7) (some 3) none).2 = none :=
  (nativeInit_frees_previous (fun _ => some 7) (some 3) none).2 rfl

/-- C9: the caller's sample array is unchanged by every `process`
call: the borrowed elements are released with `JNI_ABORT` (no copy
back) after the float conversion, so the array after the call equals
the array before it, on every path. -/
theorem nativeProcess_preserves_input (g_ctx : Option Ctx)
    (jPcm : Option (List Int)) (len : Int) (pinOk : Bool) (hw : Nat)
    (er : EngineResult) :
    (nativeProcess g_ctx jPcm len pinOk hw er).finalArr = jPcm := by
  cases g_ctx with
  | none => simp [nativeProcess]
  | some c =>
    cases jPcm with
    | none => simp [nativeProcess]
    | some a =>
      by_cases hlen : len ≤ 0
      · simp [nativeProcess, hlen]
      · cases pinOk with
        | false => simp [nativeProcess, hlen]
        | true =>
          by_cases hr : er.ret = 0 <;>
            simp [nativeProcess, hlen, hr, releaseShortArrayElements]

/-- C10: `process` always returns a (non-null) string: every exit
path, including the pin-failure path, produces a string object — the
empty string on all failure paths — and no path returns null. -/
theorem nativeProcess_total (g_ctx : Option Ctx) (jPcm : Option (List Int))
    (len : Int) (pinOk : Bool) (hw : Nat) (er : EngineResult) :
    ∃ s : String, (nativeProcess g_ctx jPcm len pinOk hw er).result = some s := by
  cases g_ctx with
  | none => exact ⟨"", by simp [nativeProcess]⟩
  | some c =>
    cases jPcm with
    | none => exact ⟨"", by simp [nativeProcess]⟩
    | some a =>
      by_cases hlen : len ≤ 0
      · exact ⟨"", by simp [nativeProcess, hlen]⟩
      · cases pinOk with
        | false => exact ⟨"", by simp [nativeProcess, hlen]⟩
        | true =>
          by_cases hr : er.ret = 0
          · exact ⟨collectSegs 0 er.segments,
              by simp [nativeProcess, hlen, hr]⟩
          · exact ⟨"", by simp [nativeProcess, hlen, hr]⟩

/-- C4 counterexample: at reported concurrency `2^31` the
`static_cast<int>` wraps to a negative value, which the clamp raises
to 2, while the claimed clamp of the reported value to [2, 4] is 4. -/
theorem thread_count_wrap_cex :
    choose_num_threads (2 ^ 31) = 2
    ∧ max 2 (min 4 ((2 ^ 31 : Nat) : Int)) = 4
    ∧ (2 : Int) ≠ 4 := by
  refine ⟨by decide, by decide, by decide⟩

/-- C4 amended: for every reported hardware concurrency below `2^31`
(where the unsigned-to-`int` conversion is value-preserving) the
thread count passed to the engine equals the count clamped to the
closed range [2, 4], with an unreported count of 0 yielding 2; for
counts in `[2^31, 2^32)` the conversion wraps to a negative `int` and
the clamp yields 2.  In particular 0 ↦ 2, 1 ↦ 2, 3 ↦ 3, 16 ↦ 4; and
whenever `process` hands the engine a parameter block, its thread
count is exactly `choose_num_threads` of the reported concurrency. -/
theorem thread_count_wrap_spec :
    (∀ hw : Nat, hw < 2 ^ 31 →
      choose_num_threads hw = max 2 (min 4 (hw : Int)))
    ∧ (∀ hw : Nat, 2 ^ 31 ≤ hw → hw < 2 ^ 32 → choose_num_threads hw = 2)
    ∧ (choose_num_threads 0 = 2 ∧ choose_num_threads 1 = 2
        ∧ choose_num_threads 3 = 3 ∧ choose_num_threads 16 = 4)
    ∧ (∀ (g_ctx : Option Ctx) (jPcm : Option (List Int)) (len : Int)
        (pinOk : Bool) (hw : Nat) (er : EngineResult) (p : FullParams),
        (nativeProcess g_ctx jPcm len pinOk hw er).engineParams = some p →
        p.n_threads = choose_num_threads hw) := by
  refine ⟨?_, ?_, ⟨by decide, by decide, by decide, by decide⟩, ?_⟩
  · intro hw h
    have hmod : (if hw = 0 then 2 else hw) % 2 ^ 32 =
        (if hw = 0 then 2 else hw) := by
      apply Nat.mod_eq_of_lt
      split_ifs <;> omega
    simp only [choose_num_threads, hmod]
    split_ifs <;> omega
  · intro hw hlo hhi
    have h0 : ¬hw = 0 := by omega
    have hmod : (if hw = 0 then 2 else hw) % 2 ^ 32 =
        (if hw = 0 then 2 else hw) := by
      apply Nat.mod_eq_of_lt
      split_ifs
      all_goals omega
    simp only [choose_num_threads, hmod, h0, if_false]
    split_ifs
    all_goals omega
  · intro g_ctx jPcm len pinOk hw er p hp
    cases g_ctx with
    | none => simp [nativeProcess] at hp
    | some c =>
      cases jPcm with
      | none => simp [nativeProcess] at hp
      | some a =>
        by_cases hlen : len ≤ 0
        · simp [nativeProcess, hlen] at hp
        · cases pinOk with
          | false => simp [nativeProcess, hlen] at hp
          | true =>
            by_cases hr : er.ret = 0 <;>
              simp [nativeProcess, hlen, hr] at hp <;>
              rw [← hp] <;> rfl

/-- Witness for C4's amended claim: concurrency 5 is clamped to 4, a
wrapped concurrency `2^31 + 7` yields 2, and a concrete engine
invocation at concurrency 3 carries the selected thread count. -/
theorem thread_count_wrap_spec_witness :
    choose_num_threads 5 = max 2 (min 4 (5 : Int))
    ∧ choose_num_threads (2 ^ 31 + 7) = 2
    ∧ (wparamsFor 3).n_threads = choose_num_threads 3 :=
  ⟨thread_count_wrap_spec.1 5 (by decide),
   thread_count_wrap_spec.2.1 (2 ^ 31 + 7) (by decide) (by decide),
   thread_count_wrap_spec.2.2.2 (some 1) (some [0]) 1 true 3 ⟨0, []⟩
     (wparamsFor 3) rfl⟩

/-- C5: the float buffer handed to the engine holds at each index `i`
exactly the sample value divided by 32768; in particular −32768 maps
to exactly −1 and 32767 maps to 32767/32768. -/
theorem sample_conversion_exact (c : Ctx) (a : List Int) (len : Int)
    (hw : Nat) (er : EngineResult) (h1 : 0 < len)
    (h2 : len.toNat ≤ a.length) :
    (nativeProcess (some c) (some a) len true hw er).enginePcm
        = some ((a.take len.toNat).map pcmToFloat)
    ∧ (∀ i : Nat, i < len.toNat →
        ((a.take len.toNat).map pcmToFloat).getD i 0
          = pcmToFloat (a.getD i 0))
    ∧ pcmToFloat (-32768) = -1
    ∧ pcmToFloat 32767 = 32767 / 32768 := by
  refine ⟨?_, ?_, by norm_num [pcmToFloat], by norm_num [pcmToFloat]⟩
  · rw [nativeProcess_run c a len hw er h1]
    by_cases hr : er.ret = 0 <;> simp [hr]
  · intro i hi
    have hia : i < a.length := lt_of_lt_of_le hi h2
    rw [List.getD_eq_getElem?_getD, List.getElem?_map,
      List.getElem?_take_of_lt hi, List.getD_eq_getElem?_getD,
      List.getElem?_eq_getElem hia]
    rfl

/-- Witness for C5: a two-sample buffer holding the extreme 16-bit
values is handed to the engine converted sample-by-sample, and −32768
converts to exactly −1. -/
theorem sample_conversion_exact_witness :
    (nativeProcess (some 1) (some [-32768, 32767]) 2 true 0
        ⟨0, []⟩).enginePcm
      = some ((([-32768, 32767] : List Int).take (2 : Int).toNat).map
          pcmToFloat)
    ∧ pcmToFloat (-32768) = -1 :=
  ⟨(sample_conversion_exact 1 [-32768, 32767] 2 0 ⟨0, []⟩ (by decide)
      (by decide)).1,
   (sample_conversion_exact 1 [-32768, 32767] 2 0 ⟨0, []⟩ (by decide)
      (by decide)).2.2.1⟩

/-- C7: with an installed context and valid inputs, `process` returns
the empty string when the engine reports failure (nonzero return) or
zero segments, and a non-empty string when the engine succeeds with at
least one non-empty segment text. -/
theorem nativeProcess_result_classification (c : Ctx) (a : List Int)
    (len : Int) (hw : Nat) (er : EngineResult) (hlen : 0 < len) :
    (er.ret ≠ 0 →
      (nativeProcess (some c) (some a) len true hw er).result = some "")
    ∧ (er.ret = 0 → er.segments = [] →
      (nativeProcess (some c) (some a) len true hw er).result = some "")
    ∧ (er.ret = 0 → (∃ s : String, some s ∈ er.segments ∧ s ≠ "") →
      ∃ str : String,
        (nativeProcess (some c) (some a) len true hw er).result = some str
        ∧ str ≠ "") := by
  refine ⟨?_, ?_, ?_⟩
  · intro hr
    rw [nativeProcess_run c a len hw er hlen, if_neg hr]
  · intro hr hseg
    rw [nativeProcess_run c a len hw er hlen, if_pos hr]
    simp [hseg, collectSegs]
  · rintro hr ⟨s, hmem, hs⟩
    rw [nativeProcess_run c a len hw er hlen, if_pos hr]
    refine ⟨collectSegs 0 er.segments, rfl, ?_⟩
    rw [collectSegs_zero]
    have hkmem : s ∈ keptTexts er.segments :=
      List.mem_filterMap.mpr ⟨some s, hmem, by simp [hs]⟩
    exact append_ne_empty_right _ _
      (specJoin_ne_empty _ (List.ne_nil_of_mem hkmem)
        (fun u hu => mem_keptTexts_ne _ u hu))

/-- Witness for C7: a successful engine run reporting the single
segment "hi" yields a non-empty transcript. -/
theorem nativeProcess_result_classification_witness :
    ∃ str : String,
      (nativeProcess (some 1) (some [0]) 1 true 0
          ⟨0, [some "hi"]⟩).result = some str
      ∧ str ≠ "" :=
  (nativeProcess_result_classification 1 [0] 1 0 ⟨0, [some "hi"]⟩
      (by decide)).2.2 rfl ⟨"hi", by decide, by decide⟩

/-- C8: the three operations are fully serialized by the single
process-wide mutex: in every reachable state of the locking
discipline, any two threads inside an operation body are the same
thread — at most one of `initialize`, `process`, `release` is inside
its body at any time, so two engine invocations never overlap. -/
theorem mutual_exclusion {s : Sys} (h : Reach s) (t1 t2 : Nat)
    (op1 op2 : BridgeOp) (h1 : s.phase t1 = .inBody op1)
    (h2 : s.phase t2 = .inBody op2) : t1 = t2 := by
  have hinv := lockInv_reach h
  have e1 := hinv t1 (by rw [h1]; intro hc; exact Phase.noConfusion hc)
  have e2 := hinv t2 (by rw [h2]; intro hc; exact Phase.noConfusion hc)
  rw [e1] at e2
  exact Option.some.inj e2

/-- Witness for C8: the state in which thread 0 has entered `process`
is reachable, and in it the mutual-exclusion theorem applies. -/
theorem mutual_exclusion_witness :
    Reach (⟨some 0, Function.update Sys.start.phase 0
      (.inBody .process)⟩ : Sys)
    ∧ (0 : Nat) = 0 :=
  ⟨Reach.step Reach.start (Step.enter Sys.start 0 .process rfl rfl),
   mutual_exclusion
     (Reach.step Reach.start (Step.enter Sys.start 0 .process rfl rfl))
     0 0 .process .process (by simp [Sys.start]) (by simp [Sys.start])⟩

/-- C1 counterexample: with a successful engine run whose first
segment text is empty and second is "hello", `process` returns
" hello" — a leading separator — while the claimed
skip-empties-and-join-with-single-spaces result is "hello". -/
theorem join_leading_space_cex :
    (nativeProcess (some 1) (some [5]) 1 true 4
        ⟨0, [some "", some "hello"]⟩).result = some " hello"
    ∧ specJoin (keptTexts [some "", some "hello"]) = "hello"
    ∧ (" hello" : String) ≠ "hello" := by
  refine ⟨by decide, by decide, by decide⟩

/-- C1 amended: on a successful engine invocation the transcript is
the single-space join of the non-empty segment texts, with one leading
space when the first reported segment text is null or empty while a
later one is non-empty (the loop keys the separator on the segment
index, not on previously emitted text); no trailing separator ever
appears. -/
theorem nativeProcess_join_amended (c : Ctx) (a : List Int) (len : Int)
    (hw : Nat) (er : EngineResult) (hlen : 0 < len)
    (hret : er.ret = 0) :
    (nativeProcess (some c) (some a) len true hw er).result =
      some ((if !(keptTexts er.segments).isEmpty && !headKept er.segments
             then " " else "") ++ specJoin (keptTexts er.segments)) := by
  rw [nativeProcess_run c a len hw er hlen, if_pos hret]
  exact congrArg some (collectSegs_zero er.segments)

/-- Witness for C1's amended claim: a run reporting segments
["", "hello"] produces the join with a leading space. -/
theorem nativeProcess_join_amended_witness :
    (nativeProcess (some 1) (some [5]) 1 true 4
        ⟨0, [some "", some "hello"]⟩).result =
      some ((if !(keptTexts [some "", some "hello"]).isEmpty
                && !headKept [some "", some "hello"]
             then " " else "")
        ++ specJoin (keptTexts [some "", some "hello"])) :=
  nativeProcess_join_amended 1 [5] 1 4 ⟨0, [some "", some "hello"]⟩
    (by decide) rfl

end ConversationGuard
